import Mathlib

/-!
Verification of the face-matching orchestration pipeline of the EventLens
photo-distribution app: the guided capture state machine and reference-set
production (`runRecordingSequence` / `finishRecording` in ClientPortal), the
background indexing processor (`processNextBatch` in PhotographerDashboard),
the chunked match orchestrator (`startScan` in ClientPortal), the oracle
adapter (`findFaceMatches` in services/geminiService.ts), and deselection
(`handleDeselect`).

The external collaborators (the Gemini matching service, image decoding via
`resizeImage`, and the camera frame source) are modelled as parameters:
`resizeImage` and the per-chunk oracle call return `Except Unit _` so that a
rejected promise is an `Except.error`, and a capture tick returns
`Option String` (`none` models `captureFrame` returning null).  Machine
timing (the 4.5 s pose timer, 50 ms ticks) only sequences the four capture
ticks, so the capture machine is modelled by the sequence of its per-pose
terminal ticks.
-/

/-- The Photo record of types.ts: id, url, file handle, timestamp, the
optional precomputed `optimizedBase64` representation and the `processed`
indexing flag. The binary image contents are modelled as strings. -/
structure Photo where
  id : String
  url : String
  file : String
  timestamp : Nat
  optimizedBase64 : Option String
  processed : Bool
deriving Repr, DecidableEq

/-- Boolean success test for `Except` (a promise that did not reject). -/
def exceptOk {ε α : Type} : Except ε α → Bool
  | .ok _ => true
  | .error _ => false

/-! ## Capture state machine (ClientPortal) -/

/-- RecordingStep of ClientPortal. -/
inductive RecordingStep where
  | IDLE
  | STRAIGHT
  | LEFT
  | RIGHT
  | SMILE
  | COMPLETED
deriving Repr, DecidableEq

/-- Outcome of one full run of the recording sequence, as observable in the
component state afterwards. `stepTrace` lists the values taken by
`recordingStep` during the run (it ends with IDLE because `stopCamera` is
called on both branches of `finishRecording`). -/
structure CaptureOutcome where
  stepTrace : List RecordingStep
  referenceFrames : Option (List String)
  displaySelfie : Option String
  error : Option String
  cameraStopped : Bool
deriving Repr, DecidableEq

/-- The error message set by `finishRecording` when no frame was captured. -/
def captureErrorMsg : String := "Failed to capture video frames."

/-- Base64 stripping done in `finishRecording`: `f.split(',')[1]`. -/
def cleanFrame (f : String) : String := ((f.splitOn ",").get? 1).getD ""

/-- finishRecording(frames): with at least one frame it installs the first
frame as the display selfie, the stripped frames as the new reference set,
clears the error, and stops the camera after a short delay; with no frames
it sets the capture error and stops the camera. The step was already set to
COMPLETED by the caller; `stopCamera` then resets it to IDLE. -/
def finishRecording (frames : List String) : CaptureOutcome :=
  if frames.length > 0 then
    { stepTrace := [.STRAIGHT, .LEFT, .RIGHT, .SMILE, .COMPLETED, .IDLE]
      referenceFrames := some (frames.map cleanFrame)
      displaySelfie := frames.head?
      error := none
      cameraStopped := true }
  else
    { stepTrace := [.STRAIGHT, .LEFT, .RIGHT, .SMILE, .COMPLETED, .IDLE]
      referenceFrames := none
      displaySelfie := none
      error := some captureErrorMsg
      cameraStopped := true }

/-- runRecordingSequence: the four timed poses STRAIGHT, LEFT, RIGHT, SMILE
each run for STEP_DURATION = 4500 ms; at each pose's terminal tick
`captureFrame()` is called and the frame is pushed only when non-null
(`if (frame) frames.push(frame)`), then the machine advances.  After the
fourth pose the step becomes COMPLETED and `finishRecording` runs on the
collected frames.  `capture k` is the frame returned at the terminal tick of
pose `k` (0 = STRAIGHT, ..., 3 = SMILE). -/
def runRecordingSequence (capture : Nat → Option String) : CaptureOutcome :=
  finishRecording ((List.range 4).filterMap capture)

/-! ## Match orchestrator (startScan in ClientPortal) -/

/-- Chunking helper with explicit fuel (structural recursion); mirrors the
loop `for (let i = 0; i < total; i += BATCH_SIZE) slice(i, i + BATCH_SIZE)`. -/
def chunksOfF {α : Type} : Nat → Nat → List α → List (List α)
  | 0, _, _ => []
  | _, _, [] => []
  | fuel + 1, n, x :: xs => (x :: xs).take n :: chunksOfF fuel n ((x :: xs).drop n)

/-- The list of successive slices of size `n` of `l`, in order. -/
def chunksOf {α : Type} (n : Nat) (l : List α) : List (List α) :=
  chunksOfF l.length n l

/-- Per-candidate base64 used for the oracle call: the cached
`optimizedBase64` when present, otherwise on-demand `resizeImage(p.file, 600)`
(modelled by the `resizeImage` parameter, which may reject). -/
def getCandidateBase64 (resizeImage : String → Except Unit String) (p : Photo) :
    Except Unit String :=
  match p.optimizedBase64 with
  | some b => Except.ok b
  | none => resizeImage p.file

/-- The Promise.all over a chunk's candidates: fails if any single
normalization fails. -/
def normalizeChunk (resizeImage : String → Except Unit String) :
    List Photo → Except Unit (List String)
  | [] => Except.ok []
  | p :: ps =>
    match getCandidateBase64 resizeImage p with
    | .error e => .error e
    | .ok b => (normalizeChunk resizeImage ps).map (fun bs => b :: bs)

/-- The mapping `indices.map(idx => chunk[idx].id)`: an out-of-range index
makes `chunk[idx]` undefined and `.id` throw, modelled by `none`. -/
def lookupIds (chunk : List Photo) : List Nat → Option (List String)
  | [] => some []
  | i :: is =>
    match chunk.get? i with
    | none => none
    | some p => (lookupIds chunk is).map (fun xs => p.id :: xs)

/-- Math.round of the nonnegative rational num/den (round half up). -/
def jsRound (num den : Nat) : Nat := (2 * num + den) / (2 * den)

/-- Progress published after chunk `k` (zero-based):
`Math.min(100, Math.round(((i + BATCH_SIZE) / totalPhotos) * 100))` with
`i = 4 * k` and BATCH_SIZE = 4. -/
def chunkProgress (total k : Nat) : Nat :=
  min 100 (jsRound ((4 * k + 4) * 100) total)

/-- Result of the chunk loop of startScan: `events` records, per completed
chunk in order, the matched ids appended and the progress published;
`calls` records the candidate base64 list of every oracle call actually
made (in call order); `failed` is true when an exception escaped the loop. -/
structure ScanChunksOut where
  events : List (List String × Nat)
  calls : List (List String)
  failed : Bool
deriving Repr, DecidableEq

/-- The body of startScan's for-loop: process chunks strictly sequentially;
for each chunk normalize all candidates (Promise.all), call the oracle once
(`oracle k` is the outcome of the k-th call to `findFaceMatches`), map the
returned chunk-relative indices to global photo ids, append them and publish
progress; any exception ends the loop. -/
def scanChunks (resizeImage : String → Except Unit String)
    (oracle : Nat → Except Unit (List Nat)) (total : Nat) :
    Nat → List (List Photo) → ScanChunksOut
  | _, [] => { events := [], calls := [], failed := false }
  | k, chunk :: rest =>
    match normalizeChunk resizeImage chunk with
    | .error _ => { events := [], calls := [], failed := true }
    | .ok bases =>
      match oracle k with
      | .error _ => { events := [], calls := [bases], failed := true }
      | .ok indices =>
        match lookupIds chunk indices with
        | none => { events := [], calls := [bases], failed := true }
        | some ids =>
          let r := scanChunks resizeImage oracle total (k + 1) rest
          { events := (ids, chunkProgress total k) :: r.events
            calls := bases :: r.calls
            failed := r.failed }

/-- The single user-facing scan error message. -/
def scanErrorMsg : String := "AI service unavailable or interrupted. Please try again."

/-- Observable result of one startScan run.  `progressTrace` is the full
sequence of values passed to setScanProgress (the initial 0, one value per
completed chunk, and the final 100 from the finally block); `matchedAdds`
are the per-chunk additions to matchedPhotoIds in order, `matchedIds` their
concatenation; `oracleCalls` the inputs of the oracle calls made; `error`
is the value of the error state afterwards (its presence is the FAILED
status of the spec). -/
structure ScanFinal where
  matchedAdds : List (List String)
  matchedIds : List String
  progressTrace : List Nat
  oracleCalls : List (List String)
  error : Option String
  isScanning : Bool
deriving Repr, DecidableEq

/-- startScan: no-op (`none`) when the reference set or candidate list is
empty; otherwise reset the session state, run the chunk loop over slices of
size BATCH_SIZE = 4, and finish via the finally block (isScanning false,
progress 100). -/
def startScan (resizeImage : String → Except Unit String)
    (oracle : Nat → Except Unit (List Nat))
    (referenceFrames : List String) (eventPhotos : List Photo) :
    Option ScanFinal :=
  if referenceFrames.length = 0 ∨ eventPhotos.length = 0 then none
  else
    let total := eventPhotos.length
    let r := scanChunks resizeImage oracle total 0 (chunksOf 4 eventPhotos)
    some { matchedAdds := r.events.map Prod.fst
           matchedIds := (r.events.map Prod.fst).flatten
           progressTrace := 0 :: r.events.map Prod.snd ++ [100]
           oracleCalls := r.calls
           error := if r.failed then some scanErrorMsg else none
           isScanning := false }

/-- handleDeselect(photoId): a pure local filter of matchedPhotoIds. -/
def handleDeselect (photoId : String) (matchedPhotoIds : List String) : List String :=
  matchedPhotoIds.filter (fun i => i ≠ photoId)

/-- Events mutating the matchedPhotoIds state: a chunk's additions published
by the scan loop, or a user deselection. -/
inductive MEvent where
  | addChunk (ids : List String)
  | deselect (x : String)
deriving Repr, DecidableEq

/-- State evolution of matchedPhotoIds under a sequence of events: additions
append (`prev => [...prev, ...chunkMatchIds]`), deselections filter. -/
def applyEvents : List MEvent → List String → List String
  | [], s => s
  | .addChunk ids :: es, s => applyEvents es (s ++ ids)
  | .deselect x :: es, s => applyEvents es (handleDeselect x s)

/-! ## Oracle adapter (findFaceMatches in geminiService.ts) -/

/-- Parsed shape of the Gemini JSON reply: the "matches" key may be absent
(`result.matches` undefined). -/
structure GeminiReply where
  matchesKey : Option (List Nat)
deriving Repr, DecidableEq

/-- findFaceMatches: returns [] immediately (service not invoked) for an
empty candidate list; otherwise invokes the service.  `service` models
`ai.models.generateContent` followed by `.text`: `.error` is a rejection
(unreachable service or timeout), `.ok none` an empty response text,
`.ok (some txt)` a response body.  `parse` models `JSON.parse`: `.error` is
a parse exception.  Every failure path yields [] (the catch block and the
early returns), so the function's promise never rejects; the Bool records
whether the external service was invoked. -/
def findFaceMatches (referencePhotosBase64 candidatePhotosBase64 : List String)
    (service : Except Unit (Option String)) (parse : String → Except Unit GeminiReply) :
    Bool × List Nat :=
  if candidatePhotosBase64.length = 0 then (false, [])
  else
    match service with
    | .error _ => (true, [])
    | .ok none => (true, [])
    | .ok (some txt) =>
      match parse txt with
      | .error _ => (true, [])
      | .ok j => (true, j.matchesKey.getD [])

/-! ## Indexing processor (processNextBatch in PhotographerDashboard) -/

/-- The Promise.all of the batch: normalize every batch member, producing
(id, optimizedBase64) update pairs; any single failure rejects the whole
batch. -/
def indexBatch (resizeImage : Photo → Except Unit String) :
    List Photo → Except Unit (List (String × String))
  | [] => Except.ok []
  | p :: ps =>
    match resizeImage p with
    | .error e => .error e
    | .ok b => (indexBatch resizeImage ps).map (fun us => (p.id, b) :: us)

/-- The setPhotos updater applied on batch success: photos whose id appears
in the updates become processed with the representation attached; all other
photos are unchanged. -/
def applyUpdates (updates : List (String × String)) (photos : List Photo) : List Photo :=
  photos.map (fun p =>
    match updates.find? (fun u => u.fst == p.id) with
    | some u => { p with processed := true, optimizedBase64 := some u.snd }
    | none => p)

/-- One pass of the background processor (reentrancy aside, handled by the
transition system below): select up to 3 unprocessed photos, normalize them
concurrently, and either apply all updates or, on any failure, log a
batch-level error and change nothing.  The Bool reports whether the batch
error was logged. -/
def processNextBatch (resizeImage : Photo → Except Unit String) (photos : List Photo) :
    List Photo × Bool :=
  let unprocessed := photos.filter (fun p => !p.processed)
  if unprocessed.isEmpty then (photos, false)
  else
    let batch := unprocessed.take 3
    match indexBatch resizeImage batch with
    | .error _ => (photos, true)
    | .ok updates => (applyUpdates updates photos, false)

/-- State of the indexing processor: the photo list, the module-level
`processingRef` flag, the `processingQueue` shown in the UI, and the batch
currently being awaited (if any). -/
structure ProcState where
  photos : List Photo
  processingRef : Bool
  processingQueue : List String
  inFlight : Option (List Photo)
deriving Repr, DecidableEq

/-- The synchronous prefix of processNextBatch: return immediately when the
guard is set or nothing is pending, otherwise take the batch, set the guard
and the UI queue, and start awaiting the batch. -/
def beginBatch (s : ProcState) : ProcState :=
  if s.processingRef then s
  else
    let unprocessed := s.photos.filter (fun p => !p.processed)
    if unprocessed.isEmpty then s
    else
      let batch := unprocessed.take 3
      { s with processingRef := true
               processingQueue := batch.map Photo.id
               inFlight := some batch }

/-- Completion of the awaited batch: on success apply the updates, on
failure only log; the finally block always clears the queue and the guard. -/
def finishBatch (s : ProcState) (result : Except Unit (List (String × String))) :
    ProcState :=
  match s.inFlight with
  | none => s
  | some _ =>
    { photos :=
        match result with
        | .error _ => s.photos
        | .ok updates => applyUpdates updates s.photos
      processingRef := false
      processingQueue := []
      inFlight := none }

/-- Interleaved events acting on the processor state: an upload appends
fresh (unprocessed) photos, a change notification invokes processNextBatch,
an awaited batch completes, the gallery is cleared. -/
inductive ProcStep : ProcState → ProcState → Prop where
  | upload (s : ProcState) (new : List Photo) (hnew : ∀ p ∈ new, p.processed = false) :
      ProcStep s { s with photos := s.photos ++ new }
  | invoke (s : ProcState) : ProcStep s (beginBatch s)
  | finish (s : ProcState) (result : Except Unit (List (String × String))) :
      ProcStep s (finishBatch s result)
  | clear (s : ProcState) : ProcStep s { s with photos := [] }

/-- Reachability from an initial processor state. -/
inductive ProcReachable (init : ProcState) : ProcState → Prop where
  | refl : ProcReachable init init
  | step {s s' : ProcState} : ProcReachable init s → ProcStep s s' → ProcReachable init s'

/-- Processor invariant: the guard flag is set exactly while a batch is in
flight; when no batch is in flight the UI queue is empty (no photo stays
marked in flight); every processed photo carries its representation. -/
def ProcInv (s : ProcState) : Prop :=
  s.processingRef = s.inFlight.isSome ∧
  (s.inFlight = none → s.processingQueue = []) ∧
  (∀ p ∈ s.photos, p.processed = true → p.optimizedBase64.isSome = true)

/-! ## Concrete instances used by scenario theorems and witnesses -/

/-- Helper to build an already-indexed photo with a given id and cached
representation. -/
def mkPhoto (i b : String) : Photo :=
  { id := i, url := "", file := "", timestamp := 0, optimizedBase64 := some b
    processed := true }

/-- A resizeImage that always succeeds. -/
def resizeOk : String → Except Unit String := fun _ => Except.ok "n"

/-- Ten indexed candidates for the chunk-size scenario. -/
def photosC5 : List Photo :=
  [mkPhoto "p0" "b0", mkPhoto "p1" "b1", mkPhoto "p2" "b2", mkPhoto "p3" "b3",
   mkPhoto "p4" "b4", mkPhoto "p5" "b5", mkPhoto "p6" "b6", mkPhoto "p7" "b7",
   mkPhoto "p8" "b8", mkPhoto "p9" "b9"]

/-- Oracle for the scenario: [0, 2] on the first chunk, [] afterwards. -/
def oracleC5 : Nat → Except Unit (List Nat) :=
  fun k => if k = 0 then Except.ok [0, 2] else Except.ok []

/-- Six indexed candidates (chunks of sizes 4 and 2) for the chunk-2
failure witness. -/
def photosC1 : List Photo :=
  [mkPhoto "p0" "b0", mkPhoto "p1" "b1", mkPhoto "p2" "b2", mkPhoto "p3" "b3",
   mkPhoto "p4" "b4", mkPhoto "p5" "b5"]

/-- Oracle matching index 1 on the first chunk and throwing on the second
call. -/
def oracleC1 : Nat → Except Unit (List Nat) :=
  fun k => if k = 0 then Except.ok [1] else Except.error ()

/-- Capture behavior failing exactly at the LEFT pose's terminal tick. -/
def captureFailLeft : Nat → Option String :=
  fun k => if k = 1 then none else some "d,x"

/-- Capture behavior succeeding at every tick. -/
def captureAllOk : Nat → Option String := fun _ => some "d,x"

/-- A freshly uploaded, not yet indexed photo. -/
def photoU (i : String) : Photo :=
  { id := i, url := "", file := i, timestamp := 0, optimizedBase64 := none
    processed := false }

/-- Three pending photos forming one indexing batch. -/
def photosABC : List Photo := [photoU "a", photoU "b", photoU "c"]

/-- Normalization failing exactly on the photo with id "b". -/
def resizeFailB : Photo → Except Unit String :=
  fun p => if p.id = "b" then Except.error () else Except.ok "n"

/-- The initial value of the cameraStream state: useState(null). -/
def initialCameraStream : Option Nat := none

/-- The cleanup of ClientPortal's unmount effect.  The effect is registered
with an empty dependency array, so its cleanup closure captures the value
`cameraStream` had on the first render; at teardown it stops the stream's
tracks only when that captured value is non-null. -/
def unmountCleanupStops (capturedStream : Option Nat) : Bool :=
  capturedStream.isSome

/-- stopCamera: stops the tracks of the currently held stream when one is
active (the explicit-stop path reads the current state, not a stale
capture). -/
def stopCameraStops (currentStream : Option Nat) : Bool :=
  currentStream.isSome

/-- Two indexed candidates (a single chunk). -/
def photosC6 : List Photo := [mkPhoto "a6" "x6", mkPhoto "b6" "y6"]

/-- Oracle returning no matches on every call. -/
def oracleEmpty : Nat → Except Unit (List Nat) := fun _ => Except.ok []

/-- Final session state of the scan over photosC6 with oracleEmpty. -/
def scanFinalC6 : ScanFinal :=
  { matchedAdds := [[]]
    matchedIds := []
    progressTrace := [0, 100, 100]
    oracleCalls := [["x6", "y6"]]
    error := none
    isScanning := false }

/-- Two indexed candidates for the subset/no-duplicates witness. -/
def photosC7 : List Photo := [mkPhoto "q0" "c0", mkPhoto "q1" "c1"]

/-- Oracle matching index 1 on the first chunk only. -/
def oracleC7 : Nat → Except Unit (List Nat) :=
  fun k => if k = 0 then Except.ok [1] else Except.ok []

/-- Final session state of the scan over photosC7 with oracleC7. -/
def scanFinalC7 : ScanFinal :=
  { matchedAdds := [["q1"]]
    matchedIds := ["q1"]
    progressTrace := [0, 100, 100]
    oracleCalls := [["c0", "c1"]]
    error := none
    isScanning := false }

/-- Five indexed candidates (chunks of sizes 4 and 1) for the deselection
witness. -/
def photosC9 : List Photo :=
  [mkPhoto "r0" "e0", mkPhoto "r1" "e1", mkPhoto "r2" "e2", mkPhoto "r3" "e3",
   mkPhoto "r4" "e4"]

/-- Oracle matching index 0 on the first chunk only. -/
def oracleC9 : Nat → Except Unit (List Nat) :=
  fun k => if k = 0 then Except.ok [0] else Except.ok []

/-- Final session state of the scan over photosC9 with oracleC9. -/
def scanFinalC9 : ScanFinal :=
  { matchedAdds := [["r0"], []]
    matchedIds := ["r0"]
    progressTrace := [0, 80, 100, 100]
    oracleCalls := [["e0", "e1", "e2", "e3"], ["e4"]]
    error := none
    isScanning := false }

/-- The processor state before any photo is uploaded. -/
def procInit : ProcState :=
  { photos := [], processingRef := false, processingQueue := [], inFlight := none }

/-- A JSON parse that always throws. -/
def parseErr : String → Except Unit GeminiReply := fun _ => Except.error ()

/-- A JSON parse producing an object without the "matches" key. -/
def parseNoKey : String → Except Unit GeminiReply :=
  fun _ => Except.ok { matchesKey := none }

/-- Processor state after uploading one photo, before any batch starts. -/
def procUploaded : ProcState :=
  { photos := [photoU "w"], processingRef := false, processingQueue := []
    inFlight := none }

/-- Processor state while its first batch is in flight. -/
def procBusy : ProcState := beginBatch procUploaded

/-! ## Helper lemmas about chunking -/

theorem chunksOfF_fuel {α : Type} (n : Nat) (hn : 0 < n) :
    ∀ fuel fuel' (l : List α), l.length ≤ fuel → l.length ≤ fuel' →
      chunksOfF fuel n l = chunksOfF fuel' n l := by
  intro fuel
  induction fuel with
  | zero =>
    intro fuel' l hl _
    have : l = [] := List.length_eq_zero.mp (Nat.le_zero.mp hl)
    subst this
    cases fuel' <;> rfl
  | succ fuel ih =>
    intro fuel' l hl hl'
    cases l with
    | nil => cases fuel' <;> rfl
    | cons x xs =>
      cases fuel' with
      | zero => simp at hl'
      | succ fuel' =>
        simp only [chunksOfF]
        congr 1
        apply ih
        · have : ((x :: xs).drop n).length = (x :: xs).length - n := List.length_drop n _
          omega
        · have : ((x :: xs).drop n).length = (x :: xs).length - n := List.length_drop n _
          omega

theorem chunksOf_cons {α : Type} (n : Nat) (hn : 0 < n) (l : List α) (hl : l ≠ []) :
    chunksOf n l = l.take n :: chunksOf n (l.drop n) := by
  cases l with
  | nil => exact absurd rfl hl
  | cons x xs =>
    show chunksOfF (x :: xs).length n (x :: xs) = _
    simp only [List.length_cons, chunksOfF]
    congr 1
    apply chunksOfF_fuel n hn
    · have : ((x :: xs).drop n).length = (x :: xs).length - n := List.length_drop n _
      simp only [List.length_cons] at this
      omega
    · exact Nat.le_refl _

theorem chunksOf_flatten {α : Type} (n : Nat) (hn : 0 < n) (l : List α) :
    (chunksOf n l).flatten = l := by
  have key : ∀ fuel (l : List α), l.length ≤ fuel → (chunksOf n l).flatten = l := by
    intro fuel
    induction fuel with
    | zero =>
      intro l hl
      have : l = [] := List.length_eq_zero.mp (Nat.le_zero.mp hl)
      subst this
      rfl
    | succ fuel ih =>
      intro l hl
      cases l with
      | nil => rfl
      | cons x xs =>
        rw [chunksOf_cons n hn _ (by simp)]
        simp only [List.flatten_cons]
        rw [ih ((x :: xs).drop n)
          (by
            have : ((x :: xs).drop n).length = (x :: xs).length - n := List.length_drop n _
            simp only [List.length_cons] at *
            omega)]
        exact List.take_append_drop n (x :: xs)
  exact key l.length l (Nat.le_refl _)

/-! ## Helper lemmas about per-chunk normalization and index mapping -/

theorem normalizeChunk_isOk (rz : String → Except Unit String) :
    ∀ ps : List Photo, (∀ p ∈ ps, exceptOk (getCandidateBase64 rz p) = true) →
      ∃ bs, normalizeChunk rz ps = Except.ok bs := by
  intro ps
  induction ps with
  | nil => intro _; exact ⟨[], rfl⟩
  | cons p ps ih =>
    intro h
    have hp := h p (List.mem_cons_self p ps)
    cases hg : getCandidateBase64 rz p with
    | error e => rw [hg] at hp; simp [exceptOk] at hp
    | ok b =>
      obtain ⟨bs, hbs⟩ := ih (fun q hq => h q (List.mem_cons_of_mem p hq))
      refine ⟨b :: bs, ?_⟩
      simp [normalizeChunk, hg, hbs, Except.map]

theorem lookupIds_mem (chunk : List Photo) :
    ∀ (is : List Nat) (ids : List String), lookupIds chunk is = some ids →
      ∀ x ∈ ids, ∃ i ∈ is, ∃ p, chunk.get? i = some p ∧ p.id = x := by
  intro is
  induction is with
  | nil =>
    intro ids h x hx
    simp only [lookupIds, Option.some.injEq] at h
    subst h
    simp at hx
  | cons i is ih =>
    intro ids h x hx
    simp only [lookupIds] at h
    cases hg : chunk.get? i with
    | none => rw [hg] at h; simp at h
    | some p =>
      rw [hg] at h
      cases hrec : lookupIds chunk is with
      | none => rw [hrec] at h; simp at h
      | some tl =>
        rw [hrec] at h
        simp only [Option.map_some', Option.some.injEq] at h
        subst h
        rcases List.mem_cons.mp hx with hx | hx
        · exact ⟨i, List.mem_cons_self i is, p, hg, hx.symm⟩
        · obtain ⟨i', hi', p', hg', hid⟩ := ih tl hrec x hx
          exact ⟨i', List.mem_cons_of_mem i hi', p', hg', hid⟩

theorem lookupIds_subset (chunk : List Photo) (is : List Nat) (ids : List String)
    (h : lookupIds chunk is = some ids) : ∀ x ∈ ids, x ∈ chunk.map Photo.id := by
  intro x hx
  obtain ⟨i, _, p, hg, hid⟩ := lookupIds_mem chunk is ids h x hx
  exact hid ▸ List.mem_map_of_mem Photo.id (List.get?_mem hg)

theorem lookupIds_nodup (chunk : List Photo) (hchunk : (chunk.map Photo.id).Nodup) :
    ∀ is : List Nat, is.Nodup → ∀ ids, lookupIds chunk is = some ids → ids.Nodup := by
  intro is
  induction is with
  | nil =>
    intro _ ids h
    simp only [lookupIds, Option.some.injEq] at h
    subst h
    exact List.nodup_nil
  | cons i is ih =>
    intro hnd ids h
    simp only [lookupIds] at h
    cases hg : chunk.get? i with
    | none => rw [hg] at h; simp at h
    | some p =>
      rw [hg] at h
      cases hrec : lookupIds chunk is with
      | none => rw [hrec] at h; simp at h
      | some tl =>
        rw [hrec] at h
        simp only [Option.map_some', Option.some.injEq] at h
        subst h
        have htl : tl.Nodup := ih (List.Nodup.of_cons hnd) tl hrec
        refine List.nodup_cons.mpr ⟨?_, htl⟩
        intro hmem
        obtain ⟨i', hi', p', hg', hid⟩ := lookupIds_mem chunk is tl hrec p.id hmem
        have h1 : (chunk.map Photo.id).get? i = some p.id := by
          rw [List.get?_map, hg]; rfl
        have h2 : (chunk.map Photo.id).get? i' = some p.id := by
          rw [List.get?_map, hg']
          simp [hid]
        have hlt : i < (chunk.map Photo.id).length := by
          rcases List.get?_eq_some.mp h1 with ⟨hl, _⟩
          exact hl
        have : i = i' := List.get?_inj hlt hchunk (h1.trans h2.symm)
        exact (List.nodup_cons.mp hnd).1 (this ▸ hi')

/-! ## Helper lemmas about the chunk loop -/

theorem chunkProgress_le_100 (total k : Nat) : chunkProgress total k ≤ 100 :=
  min_le_left 100 _

theorem chunkProgress_mono (total : Nat) {k k' : Nat} (h : k ≤ k') :
    chunkProgress total k ≤ chunkProgress total k' := by
  unfold chunkProgress jsRound
  refine min_le_min (le_refl 100) (Nat.div_le_div_right ?_)
  have : (4 * k + 4) * 100 ≤ (4 * k' + 4) * 100 := by
    apply Nat.mul_le_mul_right
    omega
  omega

theorem scanChunks_progress (rz : String → Except Unit String)
    (oracle : Nat → Except Unit (List Nat)) (total : Nat) :
    ∀ (rest : List (List Photo)) (k : Nat),
      List.Chain' (· ≤ ·) ((scanChunks rz oracle total k rest).events.map Prod.snd) ∧
      ∀ x ∈ (scanChunks rz oracle total k rest).events.map Prod.snd,
        chunkProgress total k ≤ x ∧ x ≤ 100 := by
  intro rest
  induction rest with
  | nil => intro k; simp [scanChunks]
  | cons chunk rest ih =>
    intro k
    simp only [scanChunks]
    cases hn : normalizeChunk rz chunk with
    | error e => simp [hn]
    | ok bases =>
      simp only [hn]
      cases ho : oracle k with
      | error e => simp [ho]
      | ok indices =>
        simp only [ho]
        cases hli : lookupIds chunk indices with
        | none => simp [hli]
        | some ids =>
          simp only [hli]
          simp only [List.map_cons]
          obtain ⟨ihc, ihb⟩ := ih (k + 1)
          constructor
          · rw [List.chain'_cons']
            refine ⟨?_, ihc⟩
            intro y hy
            have hy' := List.mem_of_mem_head? hy
            exact le_trans (chunkProgress_mono total (Nat.le_succ k)) (ihb y hy').1
          · intro x hx
            rcases List.mem_cons.mp hx with hx | hx
            · subst hx
              exact ⟨le_refl _, chunkProgress_le_100 total k⟩
            · obtain ⟨h1, h2⟩ := ihb x hx
              exact ⟨le_trans (chunkProgress_mono total (Nat.le_succ k)) h1, h2⟩

theorem scanChunks_adds_subset (rz : String → Except Unit String)
    (oracle : Nat → Except Unit (List Nat)) (total : Nat) :
    ∀ (rest : List (List Photo)) (k : Nat) (x : String),
      x ∈ ((scanChunks rz oracle total k rest).events.map Prod.fst).flatten →
      x ∈ rest.flatten.map Photo.id := by
  intro rest
  induction rest with
  | nil => intro k x hx; simp [scanChunks] at hx
  | cons chunk rest ih =>
    intro k x hx
    simp only [scanChunks] at hx
    cases hn : normalizeChunk rz chunk with
    | error e => simp only [hn] at hx; simp at hx
    | ok bases =>
      simp only [hn] at hx
      cases ho : oracle k with
      | error e => simp only [ho] at hx; simp at hx
      | ok indices =>
        simp only [ho] at hx
        cases hli : lookupIds chunk indices with
        | none => simp only [hli] at hx; simp at hx
        | some ids =>
          simp only [hli] at hx
          simp only [List.map_cons, List.flatten_cons, List.mem_append] at hx
          simp only [List.flatten_cons, List.map_append, List.mem_append]
          rcases hx with hx | hx
          · exact Or.inl (lookupIds_subset chunk indices ids hli x hx)
          · exact Or.inr (ih (k + 1) x hx)

theorem scanChunks_adds_nodup (rz : String → Except Unit String)
    (oracle : Nat → Except Unit (List Nat)) (total : Nat)
    (horacle : ∀ j l, oracle j = Except.ok l → l.Nodup) :
    ∀ (rest : List (List Photo)) (k : Nat),
      (rest.flatten.map Photo.id).Nodup →
      ((scanChunks rz oracle total k rest).events.map Prod.fst).flatten.Nodup := by
  intro rest
  induction rest with
  | nil => intro k _; simp [scanChunks]
  | cons chunk rest ih =>
    intro k hnd
    simp only [scanChunks]
    cases hn : normalizeChunk rz chunk with
    | error e => simp
    | ok bases =>
      cases ho : oracle k with
      | error e => simp
      | ok indices =>
        cases hli : lookupIds chunk indices with
        | none => simp [hli]
        | some ids =>
          simp only [hli]
          simp only [List.map_cons, List.flatten_cons]
          simp only [List.flatten_cons, List.map_append] at hnd
          rw [List.nodup_append] at hnd
          obtain ⟨hc, hr, hdisj⟩ := hnd
          rw [List.nodup_append]
          refine ⟨lookupIds_nodup chunk hc indices (horacle k indices ho) ids hli,
            ih (k + 1) hr, ?_⟩
          intro a ha ha'
          exact hdisj (lookupIds_subset chunk indices ids hli a ha)
            (scanChunks_adds_subset rz oracle total rest (k + 1) a ha')

theorem scanChunks_take_drop (rz : String → Except Unit String)
    (oracle : Nat → Except Unit (List Nat)) (total : Nat) :
    ∀ (rest : List (List Photo)) (k p : Nat) (x : String),
      (rest.flatten.map Photo.id).Nodup →
      x ∈ (((scanChunks rz oracle total k rest).events.map Prod.fst).take p).flatten →
      x ∉ (((scanChunks rz oracle total k rest).events.map Prod.fst).drop p).flatten := by
  intro rest
  induction rest with
  | nil =>
    intro k p x _ hx
    simp [scanChunks] at hx
  | cons chunk rest ih =>
    intro k p x hnd hx
    simp only [scanChunks] at hx ⊢
    cases hn : normalizeChunk rz chunk with
    | error e => simp only [hn] at hx; simp at hx
    | ok bases =>
      simp only [hn] at hx ⊢
      cases ho : oracle k with
      | error e => simp only [ho] at hx; simp at hx
      | ok indices =>
        simp only [ho] at hx ⊢
        cases hli : lookupIds chunk indices with
        | none => simp only [hli] at hx; simp at hx
        | some ids =>
          simp only [hli] at hx ⊢
          simp only [List.flatten_cons, List.map_append] at hnd
          rw [List.nodup_append] at hnd
          obtain ⟨hc, hr, hdisj⟩ := hnd
          cases p with
          | zero => simp at hx
          | succ q =>
            simp only [List.map_cons, List.take_succ_cons, List.drop_succ_cons,
              List.flatten_cons, List.mem_append] at hx ⊢
            rcases hx with hx | hx
            · intro hmem
              have hx' : x ∈ chunk.map Photo.id :=
                lookupIds_subset chunk indices ids hli x hx
              have hmem' :
                  x ∈ ((scanChunks rz oracle total (k + 1) rest).events.map Prod.fst).flatten := by
                rw [List.mem_flatten] at hmem ⊢
                obtain ⟨l, hl, hxl⟩ := hmem
                exact ⟨l, List.drop_subset q _ hl, hxl⟩
              exact hdisj hx' (scanChunks_adds_subset rz oracle total rest (k + 1) x hmem')
            · exact ih (k + 1) q x hr hx

/-! ## Helper lemmas about matchedPhotoIds event application -/

theorem applyEvents_append (es₁ es₂ : List MEvent) (s : List String) :
    applyEvents (es₁ ++ es₂) s = applyEvents es₂ (applyEvents es₁ s) := by
  induction es₁ generalizing s with
  | nil => rfl
  | cons e es₁ ih =>
    cases e with
    | addChunk ids =>
      simp only [List.cons_append, applyEvents]
      exact ih _
    | deselect x =>
      simp only [List.cons_append, applyEvents]
      exact ih _

theorem handleDeselect_not_mem (x : String) (s : List String) :
    x ∉ handleDeselect x s := by
  intro h
  have := List.of_mem_filter h
  simp at this

theorem handleDeselect_preserves_not_mem (x y : String) (s : List String) (h : x ∉ s) :
    x ∉ handleDeselect y s :=
  fun hmem => h (List.mem_of_mem_filter hmem)

theorem applyEvents_not_mem (x : String) :
    ∀ (es : List MEvent) (s : List String), x ∉ s →
      (∀ ids, MEvent.addChunk ids ∈ es → x ∉ ids) → x ∉ applyEvents es s := by
  intro es
  induction es with
  | nil => intro s h _; exact h
  | cons e es ih =>
    intro s hs hadds
    cases e with
    | addChunk ids =>
      apply ih
      · intro hmem
        rcases List.mem_append.mp hmem with h | h
        · exact hs h
        · exact hadds ids (List.mem_cons_self _ _) h
      · intro ids' h'
        exact hadds ids' (List.mem_cons_of_mem _ h')
    | deselect y =>
      apply ih
      · exact handleDeselect_preserves_not_mem x y s hs
      · intro ids' h'
        exact hadds ids' (List.mem_cons_of_mem _ h')

/-! ## Claim theorems -/

/-- C5: for a scan over 10 candidates with chunk size 4, exactly 3 oracle
calls occur with chunk inputs of sizes 4, 4 and 2, strictly sequentially in
candidate order; with the oracle returning [0, 2] on chunk 1 and [] on
chunks 2 and 3, the final matchedIds are exactly the ids of the candidates
at global positions 0 and 2, and the published progress passes through 40,
80 and 100. -/
theorem scan_ten_candidates_scenario :
    startScan resizeOk oracleC5 ["rf"] photosC5 =
      some { matchedAdds := [["p0", "p2"], [], []]
             matchedIds := ["p0", "p2"]
             progressTrace := [0, 40, 80, 100, 100]
             oracleCalls := [["b0", "b1", "b2", "b3"], ["b4", "b5", "b6", "b7"],
               ["b8", "b9"]]
             error := none
             isScanning := false } := by
  rfl

/-- C4: the unmount cleanup effect of the capture UI is registered with an
empty dependency array, so its closure captures the initial (null) value of
cameraStream; at teardown with a live stream it therefore stops nothing,
while the explicit stopCamera path does release the current stream.
Evaluates the code at the failing input (stream acquired after mount). -/
theorem unmount_cleanup_misses_camera :
    unmountCleanupStops initialCameraStream = false ∧
    stopCameraStops (some 0) = true :=
  ⟨rfl, rfl⟩

/-- C10: findFaceMatches never rejects (it is a total function into a plain
result in this model): with an empty candidate list it returns [] without
invoking the service, and it returns [] when the service call rejects, when
the response text is empty, when JSON.parse throws, and when the parsed
object lacks the matches key. -/
theorem findFaceMatches_never_throws (refs cands : List String)
    (service : Except Unit (Option String))
    (parse : String → Except Unit GeminiReply) :
    (cands = [] → findFaceMatches refs cands service parse = (false, [])) ∧
    (cands ≠ [] → service = Except.error () →
      findFaceMatches refs cands service parse = (true, [])) ∧
    (cands ≠ [] → service = Except.ok none →
      findFaceMatches refs cands service parse = (true, [])) ∧
    (∀ txt, cands ≠ [] → service = Except.ok (some txt) →
      parse txt = Except.error () →
      findFaceMatches refs cands service parse = (true, [])) ∧
    (∀ txt j, cands ≠ [] → service = Except.ok (some txt) →
      parse txt = Except.ok j → j.matchesKey = none →
      findFaceMatches refs cands service parse = (true, [])) := by
  have hlen : cands ≠ [] → ¬(cands.length = 0) := by
    intro h h0
    exact h (List.length_eq_zero.mp h0)
  refine ⟨?_, ?_, ?_, ?_, ?_⟩
  · intro h
    subst h
    rfl
  · intro h hs
    subst hs
    unfold findFaceMatches
    rw [if_neg (hlen h)]
  · intro h hs
    subst hs
    unfold findFaceMatches
    rw [if_neg (hlen h)]
  · intro txt h hs hp
    subst hs
    unfold findFaceMatches
    rw [if_neg (hlen h)]
    simp [hp]
  · intro txt j h hs hp hk
    subst hs
    unfold findFaceMatches
    rw [if_neg (hlen h)]
    simp [hp, hk]

/-- Witness for C10 at concrete inputs covering each failure path. -/
theorem findFaceMatches_never_throws_witness :
    findFaceMatches ["rf"] [] (Except.error ()) parseErr = (false, []) ∧
    findFaceMatches ["rf"] ["c"] (Except.error ()) parseErr = (true, []) ∧
    findFaceMatches ["rf"] ["c"] (Except.ok none) parseErr = (true, []) ∧
    findFaceMatches ["rf"] ["c"] (Except.ok (some "x")) parseErr = (true, []) ∧
    findFaceMatches ["rf"] ["c"] (Except.ok (some "x")) parseNoKey = (true, []) :=
  ⟨(findFaceMatches_never_throws ["rf"] [] (Except.error ()) parseErr).1 rfl,
   (findFaceMatches_never_throws ["rf"] ["c"] (Except.error ()) parseErr).2.1
     (by decide) rfl,
   (findFaceMatches_never_throws ["rf"] ["c"] (Except.ok none) parseErr).2.2.1
     (by decide) rfl,
   (findFaceMatches_never_throws ["rf"] ["c"] (Except.ok (some "x"))
     parseErr).2.2.2.1 "x" (by decide) rfl rfl,
   (findFaceMatches_never_throws ["rf"] ["c"] (Except.ok (some "x"))
     parseNoKey).2.2.2.2 "x" { matchesKey := none } (by decide) rfl rfl rfl⟩

theorem filterMap_length_all_isSome (f : Nat → Option String) :
    ∀ l : List Nat, (∀ k ∈ l, (f k).isSome = true) →
      (l.filterMap f).length = l.length := by
  intro l
  induction l with
  | nil => intro _; rfl
  | cons a l ih =>
    intro h
    have ha := h a (List.mem_cons_self a l)
    cases hf : f a with
    | none => rw [hf] at ha; simp at ha
    | some b =>
      rw [List.filterMap_cons_some hf]
      simp only [List.length_cons]
      rw [ih (fun k hk => h k (List.mem_cons_of_mem a hk))]

/-- C2 counterexample: when frame capture fails at the terminal tick of the
LEFT pose (and succeeds at the other three), the machine still reaches
COMPLETED with no error and installs a ReferenceSet of only 3 frames —
contradicting the claim that a capture failure at a terminal tick reports an
error and halts rather than completing. -/
theorem capture_skipped_frame_counterexample :
    captureFailLeft 1 = none ∧
    (runRecordingSequence captureFailLeft).error = none ∧
    Option.map List.length (runRecordingSequence captureFailLeft).referenceFrames =
      some 3 ∧
    RecordingStep.COMPLETED ∈ (runRecordingSequence captureFailLeft).stepTrace := by
  refine ⟨rfl, rfl, ?_, ?_⟩
  · show Option.map List.length (some ((["d,x", "d,x", "d,x"]).map cleanFrame)) = some 3
    simp
  · show RecordingStep.COMPLETED ∈ [RecordingStep.STRAIGHT, RecordingStep.LEFT,
      RecordingStep.RIGHT, RecordingStep.SMILE, RecordingStep.COMPLETED,
      RecordingStep.IDLE]
    simp

/-- C2 (amended): starting from IDLE, after the four pose durations elapse
the machine reaches COMPLETED; when all four capture ticks succeed the
produced ReferenceSet has exactly 4 frames and no error is reported.  A
failed capture tick is silently skipped: whenever at least one tick
succeeds the machine completes without error with one frame per successful
tick (possibly fewer than 4); only when every tick fails does it report the
capture error and produce no ReferenceSet (halting with the camera
released). -/
theorem capture_completion_behavior (capture : Nat → Option String) :
    ((∀ k, k < 4 → (capture k).isSome = true) →
      Option.map List.length (runRecordingSequence capture).referenceFrames = some 4 ∧
      (runRecordingSequence capture).error = none ∧
      RecordingStep.COMPLETED ∈ (runRecordingSequence capture).stepTrace) ∧
    ((List.range 4).filterMap capture = [] →
      (runRecordingSequence capture).referenceFrames = none ∧
      (runRecordingSequence capture).error = some captureErrorMsg ∧
      (runRecordingSequence capture).cameraStopped = true) ∧
    ((List.range 4).filterMap capture ≠ [] →
      (runRecordingSequence capture).error = none ∧
      Option.map List.length (runRecordingSequence capture).referenceFrames =
        some ((List.range 4).filterMap capture).length) := by
  refine ⟨?_, ?_, ?_⟩
  · intro h
    have hlen : ((List.range 4).filterMap capture).length = 4 := by
      rw [filterMap_length_all_isSome capture _
        (fun k hk => h k (List.mem_range.mp hk))]
      simp
    have hpos : ((List.range 4).filterMap capture).length > 0 := by omega
    unfold runRecordingSequence finishRecording
    rw [if_pos hpos]
    refine ⟨?_, rfl, by simp⟩
    simp [List.length_map, hlen]
  · intro h
    unfold runRecordingSequence finishRecording
    rw [if_neg (by rw [h]; simp)]
    exact ⟨rfl, rfl, rfl⟩
  · intro h
    have hpos : ((List.range 4).filterMap capture).length > 0 :=
      List.length_pos.mpr h
    unfold runRecordingSequence finishRecording
    rw [if_pos hpos]
    exact ⟨rfl, by simp [List.length_map]⟩

/-- Witness for C2 (amended) with every capture tick succeeding. -/
theorem capture_completion_witness :
    Option.map List.length (runRecordingSequence captureAllOk).referenceFrames =
      some 4 ∧
    (runRecordingSequence captureAllOk).error = none := by
  have h := (capture_completion_behavior captureAllOk).1 (fun k _ => rfl)
  exact ⟨h.1, h.2.1⟩

theorem indexBatch_error (rz : Photo → Except Unit String) :
    ∀ (ps : List Photo) (p : Photo), p ∈ ps → rz p = Except.error () →
      indexBatch rz ps = Except.error () := by
  intro ps
  induction ps with
  | nil => intro p hp _; simp at hp
  | cons q qs ih =>
    intro p hp hfail
    rcases List.mem_cons.mp hp with h | h
    · subst h
      simp [indexBatch, hfail]
    · cases hq : rz q with
      | error e =>
        cases e
        simp [indexBatch, hq]
      | ok b =>
        simp [indexBatch, hq, ih p h hfail, Except.map]

/-- C3 counterexample: in a batch of three pending photos where only the
photo "b" fails to normalize (the others succeed), the whole batch is
aborted: no photo — in particular neither "a" nor "c" — ends up indexed,
contradicting the claim that the failure is contained to the failing photo
while the other batch members complete with indexed = true. -/
theorem indexing_containment_counterexample :
    exceptOk (resizeFailB (photoU "a")) = true ∧
    exceptOk (resizeFailB (photoU "c")) = true ∧
    resizeFailB (photoU "b") = Except.error () ∧
    (processNextBatch resizeFailB photosABC).1.map Photo.processed =
      [false, false, false] ∧
    (processNextBatch resizeFailB photosABC).2 = true :=
  ⟨rfl, rfl, rfl, rfl, rfl⟩

/-- C3 (amended): a normalization failure of any photo of the selected
batch aborts the entire batch's updates: the batch-level error is logged
and every photo (batch members included) is left exactly as it was, with
indexed = false and no representation attached; the failure is thus NOT
contained to the failing photo, and the batch's other members do not
complete on this pass. -/
theorem indexing_batch_failure_aborts (rz : Photo → Except Unit String)
    (photos : List Photo) (p : Photo)
    (hp : p ∈ (photos.filter (fun q => !q.processed)).take 3)
    (hfail : rz p = Except.error ()) :
    processNextBatch rz photos = (photos, true) := by
  have hne : ¬((photos.filter (fun q => !q.processed)).isEmpty = true) := by
    intro he
    rw [List.isEmpty_iff] at he
    rw [he] at hp
    simp at hp
  unfold processNextBatch
  rw [if_neg hne]
  simp [indexBatch_error rz _ p hp hfail]

/-- Witness for C3 (amended) at the concrete failing batch. -/
theorem indexing_batch_failure_witness :
    processNextBatch resizeFailB photosABC = (photosABC, true) :=
  indexing_batch_failure_aborts resizeFailB photosABC (photoU "b")
    (by decide) rfl

/-- C6: for every scan over a non-empty candidate set (a run that startScan
actually performs), the sequence of published progressPercent values is
monotonically non-decreasing, and on success the final published value is
exactly 100 (the finally block publishes 100 even when the last partial
chunk is smaller than the nominal chunk size). -/
theorem scan_progress_monotone (rz : String → Except Unit String)
    (oracle : Nat → Except Unit (List Nat)) (refs : List String)
    (photos : List Photo) (sf : ScanFinal)
    (h : startScan rz oracle refs photos = some sf) :
    List.Chain' (· ≤ ·) sf.progressTrace ∧
    (sf.error = none → sf.progressTrace.getLast? = some 100) := by
  by_cases hc : refs.length = 0 ∨ photos.length = 0
  · simp only [startScan, if_pos hc] at h
    simp at h
  · simp only [startScan, if_neg hc] at h
    simp only [Option.some.injEq] at h
    subst h
    obtain ⟨hchain, hbound⟩ :=
      scanChunks_progress rz oracle photos.length (chunksOf 4 photos) 0
    constructor
    · show List.Chain' (· ≤ ·)
        (0 :: (scanChunks rz oracle photos.length 0
          (chunksOf 4 photos)).events.map Prod.snd ++ [100])
      rw [List.cons_append, List.chain'_cons']
      refine ⟨fun y _ => Nat.zero_le y, ?_⟩
      refine List.Chain'.append hchain (List.chain'_singleton 100) ?_
      intro a ha b hb
      obtain ⟨hne, rfl⟩ := List.mem_getLast?_eq_getLast ha
      have hb' : b = 100 := by
        have := hb
        simp at this
        omega
      subst hb'
      exact (hbound _ (List.getLast_mem hne)).2
    · intro _
      show ((0 :: (scanChunks rz oracle photos.length 0
          (chunksOf 4 photos)).events.map Prod.snd) ++ [100]).getLast? = some 100
      rw [List.getLast?_append_cons]
      rfl

/-- Witness for C6 at a concrete two-candidate scan. -/
theorem scan_progress_monotone_witness :
    List.Chain' (· ≤ ·) scanFinalC6.progressTrace ∧
    scanFinalC6.progressTrace.getLast? = some 100 := by
  have h := scan_progress_monotone resizeOk oracleEmpty ["rf"] photosC6
    scanFinalC6 rfl
  exact ⟨h.1, h.2 rfl⟩

/-- C7: for every successful scan, under the spec's data-model invariant
that candidate ids are unique and the oracle contract that each reply is a
duplicate-free set of chunk indices, the final matchedIds is a subset of
the ids of the input candidates and contains no duplicates.  (An index
outside the chunk would make the scan fail, so success needs no separate
validity hypothesis.) -/
theorem scan_matched_subset_nodup (rz : String → Except Unit String)
    (oracle : Nat → Except Unit (List Nat)) (refs : List String)
    (photos : List Photo) (sf : ScanFinal)
    (hids : (photos.map Photo.id).Nodup)
    (horacle : ∀ j l, oracle j = Except.ok l → l.Nodup)
    (h : startScan rz oracle refs photos = some sf)
    (hsucc : sf.error = none) :
    sf.matchedIds.Nodup ∧ ∀ x ∈ sf.matchedIds, x ∈ photos.map Photo.id := by
  by_cases hc : refs.length = 0 ∨ photos.length = 0
  · simp only [startScan, if_pos hc] at h
    simp at h
  · simp only [startScan, if_neg hc] at h
    simp only [Option.some.injEq] at h
    subst h
    have hflat : (chunksOf 4 photos).flatten = photos :=
      chunksOf_flatten 4 (by omega) photos
    constructor
    · show ((scanChunks rz oracle photos.length 0
        (chunksOf 4 photos)).events.map Prod.fst).flatten.Nodup
      apply scanChunks_adds_nodup rz oracle photos.length horacle
      rw [hflat]
      exact hids
    · intro x hx
      have hx' := scanChunks_adds_subset rz oracle photos.length
        (chunksOf 4 photos) 0 x hx
      rwa [hflat] at hx'

/-- Witness for C7 at a concrete two-candidate scan matching one photo. -/
theorem scan_matched_subset_nodup_witness :
    scanFinalC7.matchedIds.Nodup ∧
    ∀ x ∈ scanFinalC7.matchedIds, x ∈ photosC7.map Photo.id := by
  refine scan_matched_subset_nodup resizeOk oracleC7 ["rf"] photosC7 scanFinalC7
    (by decide) ?_ rfl rfl
  intro j l hl
  unfold oracleC7 at hl
  by_cases hj : j = 0
  · rw [if_pos hj] at hl
    injection hl with hl
    subst hl
    decide
  · rw [if_neg hj] at hl
    injection hl with hl
    subst hl
    exact List.nodup_nil

/-- C9: deselecting an id at any point of a scan run removes it from
matchedIds (a pure local filter, independent of orchestrator progress), and
no later chunk of the same run re-adds it: with unique candidate ids, an id
matched by one of the first p chunks lives in none of the later chunks, so
after the deselection it is absent from every subsequent matchedIds state. -/
theorem scan_deselect_permanent (rz : String → Except Unit String)
    (oracle : Nat → Except Unit (List Nat)) (refs : List String)
    (photos : List Photo) (sf : ScanFinal) (p : Nat) (x : String)
    (hids : (photos.map Photo.id).Nodup)
    (h : startScan rz oracle refs photos = some sf)
    (hx : x ∈ (sf.matchedAdds.take p).flatten) :
    x ∉ applyEvents ((sf.matchedAdds.take p).map MEvent.addChunk
      ++ MEvent.deselect x :: (sf.matchedAdds.drop p).map MEvent.addChunk) [] := by
  by_cases hc : refs.length = 0 ∨ photos.length = 0
  · simp only [startScan, if_pos hc] at h
    simp at h
  · simp only [startScan, if_neg hc] at h
    simp only [Option.some.injEq] at h
    subst h
    rw [applyEvents_append]
    simp only [applyEvents]
    apply applyEvents_not_mem
    · exact handleDeselect_not_mem x _
    · intro ids hmem hxmem
      rw [List.mem_map] at hmem
      obtain ⟨ids', hids', heq⟩ := hmem
      injection heq with heq
      subst heq
      have hxflat : x ∈ (((scanChunks rz oracle photos.length 0
          (chunksOf 4 photos)).events.map Prod.fst).drop p).flatten :=
        List.mem_flatten.mpr ⟨ids', hids', hxmem⟩
      refine scanChunks_take_drop rz oracle photos.length (chunksOf 4 photos) 0 p x
        ?_ hx hxflat
      rw [chunksOf_flatten 4 (by omega)]
      exact hids

/-- Witness for C9: deselecting the id matched by chunk 1 after chunk 1
completes keeps it out of the final state. -/
theorem scan_deselect_permanent_witness :
    "r0" ∉ applyEvents ((scanFinalC9.matchedAdds.take 1).map MEvent.addChunk
      ++ MEvent.deselect "r0" :: (scanFinalC9.matchedAdds.drop 1).map
        MEvent.addChunk) [] :=
  scan_deselect_permanent resizeOk oracleC9 ["rf"] photosC9 scanFinalC9 1 "r0"
    (by decide) rfl (by decide)

/-- C1: if the oracle call on the second chunk throws (and the first chunk
completed, matching ids0), the scan fails: the error state carries the
single user-facing message (the FAILED status), exactly two oracle calls
were made (the second being the throwing one — no further chunks are
processed), and matchedIds retains exactly the ids matched from chunk 1
(already-completed chunks are not rolled back). -/
theorem scan_chunk2_throw_failure (rz : String → Except Unit String)
    (oracle : Nat → Except Unit (List Nat)) (refs : List String)
    (photos : List Photo) (idx0 : List Nat) (ids0 : List String)
    (bs0 bs1 : List String)
    (hrefs : refs ≠ [])
    (hlen : 4 < photos.length)
    (hn0 : normalizeChunk rz (photos.take 4) = Except.ok bs0)
    (h0 : oracle 0 = Except.ok idx0)
    (hlk : lookupIds (photos.take 4) idx0 = some ids0)
    (hn1 : normalizeChunk rz ((photos.drop 4).take 4) = Except.ok bs1)
    (h1 : oracle 1 = Except.error ()) :
    startScan rz oracle refs photos =
      some { matchedAdds := [ids0]
             matchedIds := ids0
             progressTrace := [0, chunkProgress photos.length 0, 100]
             oracleCalls := [bs0, bs1]
             error := some scanErrorMsg
             isScanning := false } := by
  have hphotos : photos ≠ [] := by
    intro hi
    subst hi
    simp at hlen
  have hcond : ¬(refs.length = 0 ∨ photos.length = 0) := by
    intro hor
    rcases hor with hor | hor
    · exact hrefs (List.length_eq_zero.mp hor)
    · exact hphotos (List.length_eq_zero.mp hor)
  have hdropne : photos.drop 4 ≠ [] := by
    intro hi
    have hdl : (photos.drop 4).length = photos.length - 4 := List.length_drop 4 photos
    rw [hi] at hdl
    simp at hdl
    omega
  have hchunks : chunksOf 4 photos =
      photos.take 4 :: (photos.drop 4).take 4 :: chunksOf 4 ((photos.drop 4).drop 4) := by
    rw [chunksOf_cons 4 (by omega) photos hphotos,
      chunksOf_cons 4 (by omega) (photos.drop 4) hdropne]
  simp only [startScan, if_neg hcond, hchunks]
  simp only [scanChunks, hn0, h0, hlk, hn1, h1]
  simp

/-- Witness for C1 over six concrete candidates: the oracle matches index 1
on chunk 1 and throws on chunk 2. -/
theorem scan_chunk2_throw_failure_witness :
    startScan resizeOk oracleC1 ["rf"] photosC1 =
      some { matchedAdds := [["p1"]]
             matchedIds := ["p1"]
             progressTrace := [0, chunkProgress photosC1.length 0, 100]
             oracleCalls := [["b0", "b1", "b2", "b3"], ["b4", "b5"]]
             error := some scanErrorMsg
             isScanning := false } :=
  scan_chunk2_throw_failure resizeOk oracleC1 ["rf"] photosC1 [1] ["p1"]
    ["b0", "b1", "b2", "b3"] ["b4", "b5"] (by decide) (by decide) rfl rfl rfl
    rfl rfl

theorem applyUpdates_processed_inv (updates : List (String × String))
    (photos : List Photo)
    (h : ∀ p ∈ photos, p.processed = true → p.optimizedBase64.isSome = true) :
    ∀ p ∈ applyUpdates updates photos,
      p.processed = true → p.optimizedBase64.isSome = true := by
  intro p hp
  rw [applyUpdates, List.mem_map] at hp
  obtain ⟨q, hq, rfl⟩ := hp
  cases hfind : updates.find? (fun u => u.fst == q.id) with
  | none =>
    simp only [hfind]
    exact h q hq
  | some u =>
    simp only [hfind]
    intro _
    rfl

/-- C8: from any initial state satisfying the invariant, every reachable
state of the indexing processor satisfies it: the processingRef guard is
set exactly while a batch is in flight — so a change notification arriving
mid-batch leaves the state unchanged and never starts a second concurrent
batch — and whenever no batch is in flight the UI queue is empty (no photo
stays marked in flight) and every photo is either processed with its
normalized representation attached or unprocessed. -/
theorem processor_guard_and_settled (init s : ProcState)
    (hinit : ProcInv init) (hreach : ProcReachable init s) :
    ProcInv s ∧ (s.inFlight.isSome = true → beginBatch s = s) := by
  have hinv : ProcInv s := by
    induction hreach with
    | refl => exact hinit
    | @step s₁ s₂ hr hstep ih =>
      cases hstep with
      | upload new hnew =>
        refine ⟨ih.1, ih.2.1, ?_⟩
        intro p hp hproc
        rcases List.mem_append.mp hp with hp | hp
        · exact ih.2.2 p hp hproc
        · rw [hnew p hp] at hproc
          cases hproc
      | invoke =>
        unfold beginBatch
        by_cases href : s₁.processingRef = true
        · rw [if_pos href]
          exact ih
        · rw [if_neg href]
          by_cases hemp : (s₁.photos.filter (fun p => !p.processed)).isEmpty = true
          · rw [if_pos hemp]
            exact ih
          · rw [if_neg hemp]
            refine ⟨rfl, ?_, ih.2.2⟩
            intro hnone
            simp at hnone
      | finish result =>
        unfold finishBatch
        cases hf : s₁.inFlight with
        | none =>
          simp only [hf]
          exact ih
        | some b =>
          simp only [hf]
          refine ⟨rfl, fun _ => rfl, ?_⟩
          cases result with
          | error e => exact ih.2.2
          | ok updates => exact applyUpdates_processed_inv updates s₁.photos ih.2.2
      | clear =>
        refine ⟨ih.1, ih.2.1, ?_⟩
        intro p hp
        simp at hp
  refine ⟨hinv, ?_⟩
  intro hfl
  unfold beginBatch
  rw [hinv.1, if_pos hfl]

/-- Witness for C8 at a reachable mid-batch state: the invariant holds and
a second invocation is a no-op. -/
theorem processor_guard_and_settled_witness :
    ProcInv procBusy ∧
    (procBusy.inFlight.isSome = true → beginBatch procBusy = procBusy) := by
  refine processor_guard_and_settled procInit procBusy ?_ ?_
  · refine ⟨rfl, fun _ => rfl, ?_⟩
    intro p hp
    simp [procInit] at hp
  · refine ProcReachable.step (ProcReachable.step ProcReachable.refl
      (ProcStep.upload procInit [photoU "w"] ?_)) ?_
    · intro p hp
      rw [List.mem_singleton] at hp
      subst hp
      rfl
    · exact ProcStep.invoke procUploaded
